import Mathlib

/-!
Verification development for `trajectory_analysis/trajectory_experiments.py`.

Matrices are modelled by `RMat`: a pair of dimensions together with a total
entry function `ℕ → ℕ → ℝ`.  Every operation clips its result to the declared
dimensions (entries outside the dimensions are `0`), which makes equality of
`RMat` values the intended extensional equality of the underlying arrays.
Python / numpy semantics modelled here:

* `A @ B` is `RMat.mul` (sum over the column count of the left factor);
* `A + B` is entrywise addition;
* `np.tanh` / `np.maximum(x, 0)` are `RMat.map` with `tanh` / `relu`;
* `jax.scipy.special.logsumexp(A)` (default `axis=None`) is `logsumexp`,
  the log of the sum of exponentials of all entries;
* `A[idx]` for an integer list `idx` is `RMat.rowIndex`, with numpy's
  negative-index convention (`-1` resolves to the last row);
* a Python `assert` failure and a list `IndexError` are modelled by
  `Except.error`; list indexing `ws[i]` is `getW` and `ws[-1]` is
  `List.getLast?`.
-/

noncomputable section

/-- Activation from the source (`def tanh(x): return np.tanh(x)`). -/
def tanh (x : ℝ) : ℝ := Real.tanh x

/-- Activation from the source (`def relu(x): return np.maximum(x, 0)`). -/
def relu (x : ℝ) : ℝ := max x 0

/-- A real matrix with explicit dimensions and a total entry function. -/
@[ext]
structure RMat where
  rows : ℕ
  cols : ℕ
  entry : ℕ → ℕ → ℝ

namespace RMat

/-- Build a matrix from an entry function, clipping outside the dimensions. -/
def ofFun (m n : ℕ) (f : ℕ → ℕ → ℝ) : RMat :=
  ⟨m, n, fun i j => if i < m ∧ j < n then f i j else 0⟩

/-- Matrix product (`A @ B` in numpy). -/
def mul (A B : RMat) : RMat :=
  ofFun A.rows B.cols (fun i j => ∑ k in Finset.range A.cols, A.entry i k * B.entry k j)

/-- Entrywise sum (`A + B` in numpy). -/
instance : Add RMat :=
  ⟨fun A B => ofFun A.rows A.cols (fun i j => A.entry i j + B.entry i j)⟩

/-- Entrywise application of a scalar function. -/
def map (A : RMat) (f : ℝ → ℝ) : RMat :=
  ofFun A.rows A.cols (fun i j => f (A.entry i j))

/-- Matrix transpose (`A.T` in numpy). -/
def transpose (A : RMat) : RMat :=
  ofFun A.cols A.rows (fun i j => A.entry j i)

/-- An all-zero matrix (`np.zeros((m, n))`). -/
def zeros (m n : ℕ) : RMat := ofFun m n (fun _ _ => 0)

/-- Well-formedness: entries vanish outside the declared dimensions. -/
def WF (A : RMat) : Prop := ∀ i j, A.rows ≤ i ∨ A.cols ≤ j → A.entry i j = 0

/-- Diagonal matrix (`np.diag(flips)` at `trajectory_experiments.py:315`). -/
def diag (E : ℕ) (d : ℕ → ℝ) : RMat :=
  ofFun E E (fun i j => if i = j then d i else 0)

/-- Resolution of a (possibly negative) numpy row index: a negative index `z`
names row `rows + z`, so `-1` names the last row. -/
def resolve (A : RMat) (z : ℤ) : ℕ :=
  if z < 0 then ((A.rows : ℤ) + z).toNat else z.toNat

/-- Row selection `A[idx]` for a list of (possibly negative) indices. -/
def rowIndex (A : RMat) (idx : List ℤ) : RMat :=
  ofFun idx.length A.cols (fun i j => A.entry (A.resolve (idx.getD i 0)) j)

/-- Matrix power by repeated multiplication, left-associated exactly as the
source writes `L @ L @ L` (`pow A 3 = (A.mul A).mul A`). -/
def pow (A : RMat) : ℕ → RMat
  | 0 => A
  | 1 => A
  | n + 2 => (pow A (n + 1)).mul A

end RMat

/-- Quadratic form `xᵀ · A · x` restricted to the dimensions of `A`. -/
def quadForm (A : RMat) (x : ℕ → ℝ) : ℝ :=
  ∑ i in Finset.range A.rows, ∑ j in Finset.range A.cols, x i * A.entry i j * x j

/-- `np.append(B1, np.zeros((1, B1.shape[1])), axis=0)`
(`trajectory_experiments.py:397`): `B1` with one extra all-zero row. -/
def appendZeroRow (A : RMat) : RMat :=
  RMat.ofFun (A.rows + 1) A.cols (fun i j => if i < A.rows then A.entry i j else 0)

/-- `Bconds_func` (`trajectory_experiments.py:407-412`): the rows of the
row-augmented boundary matrix selected by the padded neighbor list of `n`. -/
def Bconds_func (B1_jax : RMat) (nbrhoods : ℤ → List ℤ) (n : ℤ) : RMat :=
  B1_jax.rowIndex (nbrhoods n)

/-- Padded neighbor list of one node
(`trajectory_experiments.py:388`): sorted neighbors followed by `-1` sentinels
up to the maximum degree. -/
def padded_nbrhood (nbrs : List ℤ) (max_degree : ℕ) : List ℤ :=
  nbrs ++ List.replicate (max_degree - nbrs.length) (-1)

/-- `logsumexp(A)` over all entries (jax default `axis=None`). -/
def logsumexp (A : RMat) : ℝ :=
  Real.log (∑ i in Finset.range A.rows, ∑ j in Finset.range A.cols, Real.exp (A.entry i j))

/-- `logits - logsumexp(logits)`: the final log-softmax of every forward pass. -/
def logSoftmax (A : RMat) : RMat :=
  RMat.ofFun A.rows A.cols (fun i j => A.entry i j - logsumexp A)

/-- Sum of `exp` over all entries of a matrix (total probability mass). -/
def expSumAll (A : RMat) : ℝ :=
  ∑ i in Finset.range A.rows, ∑ j in Finset.range A.cols, Real.exp (A.entry i j)

/-- Python list read `ws[i]` for `i ≥ 0`: `IndexError` when out of range. -/
def getW (ws : List RMat) (i : ℕ) : Except String RMat :=
  match ws[i]? with
  | some w => .ok w
  | none => .error "IndexError"

/-- The per-layer loop `for i in range(n_layers)`, threading the signal and
propagating the first error. -/
def runLayers {σ : Type} (step : ℕ → σ → Except String σ) : List ℕ → σ → Except String σ
  | [], x => .ok x
  | i :: rest, x =>
    match step i x with
    | .error e => .error e
    | .ok y => runLayers step rest y

/-- One layer of `scone_func` (`trajectory_experiments.py:150-155`). -/
def sconeStep (weights : List RMat) (S_lower S_upper : RMat) (i : ℕ) (x : RMat) :
    Except String RMat :=
  match getW weights (i * 3), getW weights (i * 3 + 1), getW weights (i * 3 + 2) with
  | .ok w0, .ok w1, .ok w2 =>
      .ok (RMat.map (x.mul w0 + (S_lower.mul x).mul w1 + (S_upper.mul x).mul w2) tanh)
  | .error e, _, _ => .error e
  | _, .error e, _ => .error e
  | _, _, .error e => .error e

/-- `scone_func` (`trajectory_experiments.py:141-159`): assert
`(len(weights) - 1) / 3` is an integer, run that many layers, then project
through `Bcond_func(last_node)` and the terminal weight `weights[-1]` and
return the log-softmax of the logits. -/
def scone_func (weights : List RMat) (S_lower S_upper : RMat) (Bcond_func : ℤ → RMat)
    (last_node : ℤ) (flow : RMat) : Except String RMat :=
  if ((weights.length : ℤ) - 1) % 3 = 0 then
    match runLayers (sconeStep weights S_lower S_upper)
        (List.range (((weights.length : ℤ) - 1) / 3).toNat) flow with
    | .error e => .error e
    | .ok cur =>
      match weights.getLast? with
      | none => .error "IndexError"
      | some wlast => .ok (logSoftmax (((Bcond_func last_node).mul cur).mul wlast))
  else .error "wrong number of weights"

/-- Default hyperparameter `k1_scnn` (`trajectory_experiments.py:93`). -/
def k1_scnn : ℕ := 2

/-- Default hyperparameter `k2_scnn` (`trajectory_experiments.py:94`). -/
def k2_scnn : ℕ := 2

/-- One layer of `scnn_func_2` (`trajectory_experiments.py:188-195`). -/
def scnn2Step (k1 k2 : ℕ) (weights : List RMat) (S_lower S2_lower S_upper S2_upper : RMat)
    (i : ℕ) (x : RMat) : Except String RMat :=
  match getW weights (i * (1 + k1 + k2)), getW weights (i * (1 + k1 + k2) + 1),
      getW weights (i * (1 + k1 + k2) + 2), getW weights (i * (1 + k1 + k2) + 3),
      getW weights (i * (1 + k1 + k2) + 4) with
  | .ok w0, .ok w1, .ok w2, .ok w3, .ok w4 =>
      .ok (RMat.map (x.mul w0 + (S_lower.mul x).mul w1 + (S2_lower.mul x).mul w2
        + (S_upper.mul x).mul w3 + (S2_upper.mul x).mul w4) tanh)
  | .error e, _, _, _, _ => .error e
  | _, .error e, _, _, _ => .error e
  | _, _, .error e, _, _ => .error e
  | _, _, _, .error e, _ => .error e
  | _, _, _, _, .error e => .error e

/-- `scnn_func_2` (`trajectory_experiments.py:179-198`): the validation and
layer count divide `len(weights) - 1` by `1 + k1 + k2`. -/
def scnn_func_2 (k1 k2 : ℕ) (weights : List RMat)
    (S_lower S2_lower S_upper S2_upper : RMat) (Bcond_func : ℤ → RMat)
    (last_node : ℤ) (flow : RMat) : Except String RMat :=
  if ((weights.length : ℤ) - 1) % ((1 + k1 + k2 : ℕ) : ℤ) = 0 then
    match runLayers (scnn2Step k1 k2 weights S_lower S2_lower S_upper S2_upper)
        (List.range ((((weights.length : ℤ) - 1) / ((1 + k1 + k2 : ℕ) : ℤ))).toNat) flow with
    | .error e => .error e
    | .ok cur =>
      match weights.getLast? with
      | none => .error "IndexError"
      | some wlast => .ok (logSoftmax (((Bcond_func last_node).mul cur).mul wlast))
  else .error "wrong number of weights"

/-- One layer of `scnn_func_3` (`trajectory_experiments.py:209-218`): reads the
seven operator weights at offsets `1..6` of the group of size `1 + k1 + k2`. -/
def scnn3Step (k1 k2 : ℕ) (weights : List RMat)
    (S_lower S2_lower S3_lower S_upper S2_upper S3_upper : RMat)
    (i : ℕ) (x : RMat) : Except String RMat :=
  match getW weights (i * (1 + k1 + k2)), getW weights (i * (1 + k1 + k2) + 1),
      getW weights (i * (1 + k1 + k2) + 2), getW weights (i * (1 + k1 + k2) + 3),
      getW weights (i * (1 + k1 + k2) + 4), getW weights (i * (1 + k1 + k2) + 5),
      getW weights (i * (1 + k1 + k2) + 6) with
  | .ok w0, .ok w1, .ok w2, .ok w3, .ok w4, .ok w5, .ok w6 =>
      .ok (RMat.map (x.mul w0 + (S_lower.mul x).mul w1 + (S2_lower.mul x).mul w2
        + (S3_lower.mul x).mul w3 + (S_upper.mul x).mul w4 + (S2_upper.mul x).mul w5
        + (S3_upper.mul x).mul w6) tanh)
  | .error e, _, _, _, _, _, _ => .error e
  | _, .error e, _, _, _, _, _ => .error e
  | _, _, .error e, _, _, _, _ => .error e
  | _, _, _, .error e, _, _, _ => .error e
  | _, _, _, _, .error e, _, _ => .error e
  | _, _, _, _, _, .error e, _ => .error e
  | _, _, _, _, _, _, .error e => .error e

/-- `scnn_func_3` (`trajectory_experiments.py:200-221`): the validation and
layer count divide `len(weights) - 1` by `1 + k1 + k2` (5 under the default
hyperparameters), although each layer consumes 7 weights. -/
def scnn_func_3 (k1 k2 : ℕ) (weights : List RMat)
    (S_lower S2_lower S3_lower S_upper S2_upper S3_upper : RMat) (Bcond_func : ℤ → RMat)
    (last_node : ℤ) (flow : RMat) : Except String RMat :=
  if ((weights.length : ℤ) - 1) % ((1 + k1 + k2 : ℕ) : ℤ) = 0 then
    match runLayers (scnn3Step k1 k2 weights S_lower S2_lower S3_lower S_upper S2_upper S3_upper)
        (List.range ((((weights.length : ℤ) - 1) / ((1 + k1 + k2 : ℕ) : ℤ))).toNat) flow with
    | .error e => .error e
    | .ok cur =>
      match weights.getLast? with
      | none => .error "IndexError"
      | some wlast => .ok (logSoftmax (((Bcond_func last_node).mul cur).mul wlast))
  else .error "wrong number of weights"

/-- One layer of `scnn_func_4` (`trajectory_experiments.py:232-243`).  Note:
exactly as in the source, the weight at offset `4` multiplies `S4_upper` (which
also appears at offset `8`), and the argument `S4_lower` is never used. -/
def scnn4Step (k1 k2 : ℕ) (weights : List RMat)
    (S_lower S2_lower S3_lower S4_lower S_upper S2_upper S3_upper S4_upper : RMat)
    (i : ℕ) (x : RMat) : Except String RMat :=
  match getW weights (i * (1 + k1 + k2)), getW weights (i * (1 + k1 + k2) + 1),
      getW weights (i * (1 + k1 + k2) + 2), getW weights (i * (1 + k1 + k2) + 3),
      getW weights (i * (1 + k1 + k2) + 4), getW weights (i * (1 + k1 + k2) + 5),
      getW weights (i * (1 + k1 + k2) + 6), getW weights (i * (1 + k1 + k2) + 7),
      getW weights (i * (1 + k1 + k2) + 8) with
  | .ok w0, .ok w1, .ok w2, .ok w3, .ok w4, .ok w5, .ok w6, .ok w7, .ok w8 =>
      .ok (RMat.map (x.mul w0 + (S_lower.mul x).mul w1 + (S2_lower.mul x).mul w2
        + (S3_lower.mul x).mul w3 + (S4_upper.mul x).mul w4 + (S_upper.mul x).mul w5
        + (S2_upper.mul x).mul w6 + (S3_upper.mul x).mul w7 + (S4_upper.mul x).mul w8) tanh)
  | .error e, _, _, _, _, _, _, _, _ => .error e
  | _, .error e, _, _, _, _, _, _, _ => .error e
  | _, _, .error e, _, _, _, _, _, _ => .error e
  | _, _, _, .error e, _, _, _, _, _ => .error e
  | _, _, _, _, .error e, _, _, _, _ => .error e
  | _, _, _, _, _, .error e, _, _, _ => .error e
  | _, _, _, _, _, _, .error e, _, _ => .error e
  | _, _, _, _, _, _, _, .error e, _ => .error e
  | _, _, _, _, _, _, _, _, .error e => .error e

/-- `scnn_func_4` (`trajectory_experiments.py:223-246`): the validation and
layer count divide `len(weights) - 1` by `1 + k1 + k2` (5 under the default
hyperparameters), although each layer consumes 9 weights. -/
def scnn_func_4 (k1 k2 : ℕ) (weights : List RMat)
    (S_lower S2_lower S3_lower S4_lower S_upper S2_upper S3_upper S4_upper : RMat)
    (Bcond_func : ℤ → RMat) (last_node : ℤ) (flow : RMat) : Except String RMat :=
  if ((weights.length : ℤ) - 1) % ((1 + k1 + k2 : ℕ) : ℤ) = 0 then
    match runLayers (scnn4Step k1 k2 weights S_lower S2_lower S3_lower S4_lower
        S_upper S2_upper S3_upper S4_upper)
        (List.range ((((weights.length : ℤ) - 1) / ((1 + k1 + k2 : ℕ) : ℤ))).toNat) flow with
    | .error e => .error e
    | .ok cur =>
      match weights.getLast? with
      | none => .error "IndexError"
      | some wlast => .ok (logSoftmax (((Bcond_func last_node).mul cur).mul wlast))
  else .error "wrong number of weights"

/-- One layer of `ebli_func` (`trajectory_experiments.py:260-266`). -/
def ebliStep (weights : List RMat) (S S2 S3 : RMat) (i : ℕ) (x : RMat) :
    Except String RMat :=
  match getW weights (i * 4), getW weights (i * 4 + 1), getW weights (i * 4 + 2),
      getW weights (i * 4 + 3) with
  | .ok w0, .ok w1, .ok w2, .ok w3 =>
      .ok (RMat.map (x.mul w0 + (S.mul x).mul w1 + (S2.mul x).mul w2
        + (S3.mul x).mul w3) tanh)
  | .error e, _, _, _ => .error e
  | _, .error e, _, _ => .error e
  | _, _, .error e, _ => .error e
  | _, _, _, .error e => .error e

/-- `ebli_func` (`trajectory_experiments.py:249-269`): the validation and layer
count divide `len(weights) - 1` by 4. -/
def ebli_func (weights : List RMat) (S S2 S3 : RMat) (Bcond_func : ℤ → RMat)
    (last_node : ℤ) (flow : RMat) : Except String RMat :=
  if ((weights.length : ℤ) - 1) % 4 = 0 then
    match runLayers (ebliStep weights S S2 S3)
        (List.range (((weights.length : ℤ) - 1) / 4).toNat) flow with
    | .error e => .error e
    | .ok cur =>
      match weights.getLast? with
      | none => .error "IndexError"
      | some wlast => .ok (logSoftmax (((Bcond_func last_node).mul cur).mul wlast))
  else .error "wrong number of weights"

/-- One layer of `bunch_func` (`trajectory_experiments.py:281-294`): a
three-level (node, edge, triangle) state updated by the seven shift operators
and passed through `relu`. -/
def bunchStep (weights : List RMat) (S_00 S_10 S_01 S_11 S_21 S_12 S_22 : RMat)
    (i : ℕ) (c : RMat × RMat × RMat) : Except String (RMat × RMat × RMat) :=
  match getW weights (i * 7), getW weights (i * 7 + 1), getW weights (i * 7 + 2),
      getW weights (i * 7 + 3), getW weights (i * 7 + 4), getW weights (i * 7 + 5),
      getW weights (i * 7 + 6) with
  | .ok w0, .ok w1, .ok w2, .ok w3, .ok w4, .ok w5, .ok w6 =>
      .ok (RMat.map ((S_00.mul c.1).mul w0 + (S_10.mul c.2.1).mul w1) relu,
           RMat.map ((S_01.mul c.1).mul w2 + (S_11.mul c.2.1).mul w3
             + (S_21.mul c.2.2).mul w4) relu,
           RMat.map ((S_12.mul c.2.1).mul w5 + (S_22.mul c.2.2).mul w6) relu)
  | .error e, _, _, _, _, _, _ => .error e
  | _, .error e, _, _, _, _, _ => .error e
  | _, _, .error e, _, _, _, _ => .error e
  | _, _, _, .error e, _, _, _ => .error e
  | _, _, _, _, .error e, _, _ => .error e
  | _, _, _, _, _, .error e, _ => .error e
  | _, _, _, _, _, _, .error e => .error e

/-- `bunch_func` (`trajectory_experiments.py:272-299`): the validation and
layer count divide `len(weights)` (with no minus one) by 7; the node-level
output is indexed by the padded neighborhood of the last node and
log-softmaxed. -/
def bunch_func (weights : List RMat) (S_00 S_10 S_01 S_11 S_21 S_12 S_22 : RMat)
    (nbrhoods : ℤ → List ℤ) (last_node : ℤ) (flow : RMat) : Except String RMat :=
  if ((weights.length : ℤ)) % 7 = 0 then
    match runLayers (bunchStep weights S_00 S_10 S_01 S_11 S_21 S_12 S_22)
        (List.range (((weights.length : ℤ) / 7)).toNat)
        (RMat.zeros S_00.cols 1, flow, RMat.zeros S_22.cols 1) with
    | .error e => .error e
    | .ok cur => .ok (logSoftmax (cur.1.rowIndex (nbrhoods last_node)))
  else .error "wrong number of weights"

/-- `L1_lower = B1.T @ B1` (`trajectory_experiments.py:336`). -/
def L1_lower (B1 : RMat) : RMat := B1.transpose.mul B1

/-- `L1_upper = B2 @ B2.T` (`trajectory_experiments.py:337`). -/
def L1_upper (B2 : RMat) : RMat := B2.mul B2.transpose

/-- The shift-operator selection of `data_setup`
(`trajectory_experiments.py:336-369`), on the default (no edge-flip) path.
The decomposition family delegates to the external routine
`compute_shift_matrices`, taken here as the parameter `cSM`. -/
def data_setup_shifts (cSM : RMat → RMat → List RMat) (model : String) (B1 B2 : RMat) :
    Except String (List RMat) :=
  if model = "scone" then
    .ok [L1_lower B1, L1_upper B2]
  else if model = "scnn2" then
    .ok [L1_lower B1, (L1_lower B1).mul (L1_lower B1),
         L1_upper B2, (L1_upper B2).mul (L1_upper B2)]
  else if model = "scnn3" then
    .ok [L1_lower B1, (L1_lower B1).mul (L1_lower B1),
         ((L1_lower B1).mul (L1_lower B1)).mul (L1_lower B1),
         L1_upper B2, (L1_upper B2).mul (L1_upper B2),
         ((L1_upper B2).mul (L1_upper B2)).mul (L1_upper B2)]
  else if model = "scnn4" then
    .ok [L1_lower B1, (L1_lower B1).mul (L1_lower B1),
         ((L1_lower B1).mul (L1_lower B1)).mul (L1_lower B1),
         (((L1_lower B1).mul (L1_lower B1)).mul (L1_lower B1)).mul (L1_lower B1),
         L1_upper B2, (L1_upper B2).mul (L1_upper B2),
         ((L1_upper B2).mul (L1_upper B2)).mul (L1_upper B2),
         (((L1_upper B2).mul (L1_upper B2)).mul (L1_upper B2)).mul (L1_upper B2)]
  else if model = "ebli" then
    .ok [L1_lower B1 + L1_upper B2,
         (L1_lower B1 + L1_upper B2).mul (L1_lower B1 + L1_upper B2),
         ((L1_lower B1 + L1_upper B2).mul (L1_lower B1 + L1_upper B2)).mul
           (L1_lower B1 + L1_upper B2)]
  else if model = "bunch" then
    .ok (cSM B1 B2)
  else .error "invalid model type"

/-- Regional-transfer train mask (`trajectory_experiments.py:563`):
`1 if i % 3 == 1 else 0` for each example index. -/
def regional_train_mask (n : ℕ) : List ℕ :=
  (List.range n).map (fun i => if i % 3 = 1 then 1 else 0)

/-- Regional-transfer test mask (`trajectory_experiments.py:564`):
`1 if i % 3 == 2 else 0` for each example index. -/
def regional_test_mask (n : ℕ) : List ℕ :=
  (List.range n).map (fun i => if i % 3 = 2 then 1 else 0)

/-- The prefix-cache fallback of `data_setup`
(`trajectory_experiments.py:391-395`): if loading the precomputed prefixes
fails, recompute one prefix per example by `flow_to_path` (external to the
sources, taken here as the parameter `flow_to_path_fn`) applied to the
example's flow, the edge list `E` and the example's last node. -/
def load_prefixes (cache : Except String (List (List ℤ)))
    (flow_to_path_fn : RMat → List (ℤ × ℤ) → ℤ → List ℤ)
    (E : List (ℤ × ℤ)) (flows : List RMat) (last_nodes : List ℤ) : List (List ℤ) :=
  match cache with
  | .ok ps => ps
  | .error _ =>
      (List.range last_nodes.length).map
        (fun i => flow_to_path_fn (flows.getD i (RMat.zeros 0 0)) E (last_nodes.getD i 0))

/-! ### Basic facts about the matrix model -/

namespace RMat

theorem entry_ofFun (m n : ℕ) (f : ℕ → ℕ → ℝ) (i j : ℕ) :
    (ofFun m n f).entry i j = if i < m ∧ j < n then f i j else 0 := rfl

theorem rows_ofFun (m n : ℕ) (f : ℕ → ℕ → ℝ) : (ofFun m n f).rows = m := rfl

theorem cols_ofFun (m n : ℕ) (f : ℕ → ℕ → ℝ) : (ofFun m n f).cols = n := rfl

theorem ofFun_wf (m n : ℕ) (f : ℕ → ℕ → ℝ) : (ofFun m n f).WF := by
  intro i j h
  rw [rows_ofFun, cols_ofFun] at h
  rw [entry_ofFun, if_neg]
  rintro ⟨h1, h2⟩
  rcases h with h | h <;> omega

theorem add_def (A B : RMat) :
    A + B = ofFun A.rows A.cols (fun i j => A.entry i j + B.entry i j) := rfl

theorem mul_wf (A B : RMat) : (A.mul B).WF := ofFun_wf _ _ _

theorem add_wf (A B : RMat) : (A + B).WF := ofFun_wf _ _ _

theorem map_wf (A : RMat) (f : ℝ → ℝ) : (A.map f).WF := ofFun_wf _ _ _

/-- Associativity of the clipped matrix product, provided the inner dimensions
of the first two factors agree. -/
theorem mul_assoc' {A B : RMat} (h : A.cols = B.rows) (C : RMat) :
    (A.mul B).mul C = A.mul (B.mul C) := by
  refine RMat.ext rfl rfl ?_
  funext i j
  show (if i < A.rows ∧ j < C.cols then
      ∑ k in Finset.range B.cols, (A.mul B).entry i k * C.entry k j else 0)
    = (if i < A.rows ∧ j < C.cols then
      ∑ k in Finset.range A.cols, A.entry i k * (B.mul C).entry k j else 0)
  by_cases hij : i < A.rows ∧ j < C.cols
  · rw [if_pos hij, if_pos hij]
    calc ∑ k in Finset.range B.cols, (A.mul B).entry i k * C.entry k j
        = ∑ k in Finset.range B.cols, ∑ l in Finset.range A.cols,
            A.entry i l * B.entry l k * C.entry k j := by
          refine Finset.sum_congr rfl (fun k hk => ?_)
          rw [show (A.mul B).entry i k
              = if i < A.rows ∧ k < B.cols then
                  ∑ l in Finset.range A.cols, A.entry i l * B.entry l k else 0 from rfl,
            if_pos ⟨hij.1, Finset.mem_range.mp hk⟩, Finset.sum_mul]
      _ = ∑ l in Finset.range A.cols, ∑ k in Finset.range B.cols,
            A.entry i l * (B.entry l k * C.entry k j) := by
          rw [Finset.sum_comm]
          exact Finset.sum_congr rfl (fun l _ => Finset.sum_congr rfl (fun k _ => by ring))
      _ = ∑ k in Finset.range A.cols, A.entry i k * (B.mul C).entry k j := by
          refine Finset.sum_congr rfl (fun l hl => ?_)
          rw [show (B.mul C).entry l j
              = if l < B.rows ∧ j < C.cols then
                  ∑ k in Finset.range B.cols, B.entry l k * C.entry k j else 0 from rfl,
            if_pos ⟨h ▸ Finset.mem_range.mp hl, hij.2⟩, Finset.mul_sum]
  · rw [if_neg hij, if_neg hij]

/-- Multiplying by a diagonal matrix on the left scales the rows. -/
theorem diag_mul (E : ℕ) (d : ℕ → ℝ) (X : RMat) :
    (diag E d).mul X = ofFun E X.cols (fun i j => d i * X.entry i j) := by
  refine RMat.ext rfl rfl ?_
  funext i j
  show (if i < E ∧ j < X.cols then
      ∑ k in Finset.range E, (diag E d).entry i k * X.entry k j else 0)
    = if i < E ∧ j < X.cols then d i * X.entry i j else 0
  by_cases hij : i < E ∧ j < X.cols
  · rw [if_pos hij, if_pos hij]
    rw [Finset.sum_eq_single_of_mem i (Finset.mem_range.mpr hij.1)]
    · rw [show (diag E d).entry i i
        = if i < E ∧ i < E then (if i = i then d i else 0) else 0 from rfl]
      simp [hij.1]
    · intro k _ hki
      rw [show (diag E d).entry i k
        = if i < E ∧ k < E then (if i = k then d i else 0) else 0 from rfl]
      have : ¬ i = k := fun hc => hki hc.symm
      simp [this]
  · rw [if_neg hij, if_neg hij]

/-- Multiplying by a diagonal matrix on the right scales the columns, when the
column count of the left factor matches. -/
theorem mul_diag (E : ℕ) (d : ℕ → ℝ) {X : RMat} (h : X.cols = E) :
    X.mul (diag E d) = ofFun X.rows E (fun i j => X.entry i j * d j) := by
  refine RMat.ext rfl rfl ?_
  funext i j
  show (if i < X.rows ∧ j < E then
      ∑ k in Finset.range X.cols, X.entry i k * (diag E d).entry k j else 0)
    = if i < X.rows ∧ j < E then X.entry i j * d j else 0
  by_cases hij : i < X.rows ∧ j < E
  · rw [if_pos hij, if_pos hij]
    rw [Finset.sum_eq_single_of_mem j (Finset.mem_range.mpr (h ▸ hij.2))]
    · rw [show (diag E d).entry j j
        = if j < E ∧ j < E then (if j = j then d j else 0) else 0 from rfl]
      simp [hij.2]
    · intro k _ hkj
      rw [show (diag E d).entry k j
        = if k < E ∧ j < E then (if k = j then d k else 0) else 0 from rfl]
      simp [hkj]
  · rw [if_neg hij, if_neg hij]

/-- A `±1` diagonal matrix is an involution on well-formed matrices of matching
row count. -/
theorem diag_diag_cancel {E : ℕ} {d : ℕ → ℝ} (hd : ∀ i, d i = 1 ∨ d i = -1)
    {X : RMat} (hx : X.WF) (hxr : X.rows = E) :
    (diag E d).mul ((diag E d).mul X) = X := by
  rw [diag_mul, diag_mul]
  refine RMat.ext hxr.symm rfl ?_
  funext i j
  simp only [entry_ofFun, cols_ofFun]
  by_cases hij : i < E ∧ j < X.cols
  · rw [if_pos hij, if_pos hij, ← mul_assoc]
    rcases hd i with h | h <;> simp [h]
  · rw [if_neg hij]
    refine (hx i j ?_).symm
    rcases Nat.lt_or_ge i E with h | h
    · rcases Nat.lt_or_ge j X.cols with h2 | h2
      · exact absurd ⟨h, h2⟩ hij
      · exact Or.inr h2
    · exact Or.inl (by omega)

/-- Left multiplication by a diagonal matrix distributes over the clipped sum. -/
theorem diag_add {E : ℕ} (d : ℕ → ℝ) {A B : RMat} (ha : A.rows = E) (hb : B.WF) :
    (diag E d).mul A + (diag E d).mul B = (diag E d).mul (A + B) := by
  rw [diag_mul, diag_mul, diag_mul, add_def, add_def]
  refine RMat.ext rfl rfl ?_
  funext i j
  simp only [entry_ofFun, rows_ofFun, cols_ofFun]
  by_cases hij : i < E ∧ j < A.cols
  · rw [if_pos hij, if_pos hij, if_pos hij,
      if_pos (show i < A.rows ∧ j < A.cols from ⟨by omega, hij.2⟩)]
    by_cases hj : j < B.cols
    · rw [if_pos ⟨hij.1, hj⟩]; ring
    · rw [if_neg (fun hc => hj hc.2), hb i j (Or.inr (Nat.le_of_not_lt hj))]; ring
  · rw [if_neg hij, if_neg hij]

theorem tanh_pm {c : ℝ} (hc : c = 1 ∨ c = -1) (t : ℝ) : tanh (c * t) = c * tanh t := by
  rcases hc with h | h <;> subst h
  · rw [one_mul, one_mul]
  · rw [neg_one_mul, neg_one_mul]
    exact Real.tanh_neg t

/-- `tanh` applied entrywise commutes with a `±1` diagonal scaling. -/
theorem diag_map_tanh {E : ℕ} {d : ℕ → ℝ} (hd : ∀ i, d i = 1 ∨ d i = -1)
    {Y : RMat} (hY : Y.rows = E) :
    ((diag E d).mul Y).map tanh = (diag E d).mul (Y.map tanh) := by
  rw [diag_mul, diag_mul]
  refine RMat.ext rfl rfl ?_
  funext i j
  show (if i < E ∧ j < Y.cols then
      tanh ((ofFun E Y.cols (fun i j => d i * Y.entry i j)).entry i j) else 0)
    = if i < E ∧ j < Y.cols then d i * (Y.map tanh).entry i j else 0
  by_cases hij : i < E ∧ j < Y.cols
  · rw [if_pos hij, if_pos hij, entry_ofFun, if_pos hij,
      show (Y.map tanh).entry i j
        = if i < Y.rows ∧ j < Y.cols then tanh (Y.entry i j) else 0 from rfl,
      if_pos ⟨hY ▸ hij.1, hij.2⟩]
    exact tanh_pm (hd i) _
  · rw [if_neg hij, if_neg hij]

end RMat

/-! ### Claim C4: shift-operator lists per model family -/

/-- C4: for every pair of boundary matrices `B1`, `B2`, the shift-operator
builder returns exactly the prescribed ordered operator list for each family:
`[lower, upper]` for base (`scone`), the powers `lower, lower², …` followed by
`upper, upper², …` up to the order for `scnn2`/`scnn3`/`scnn4`, and
`[L, L², L³]` with `L = lower + upper` for the combined-sum family (`ebli`),
where `lower = B1ᵀ·B1`, `upper = B2·B2ᵀ` and all powers are formed by repeated
matrix multiplication. -/
theorem data_setup_shifts_families (cSM : RMat → RMat → List RMat) (B1 B2 : RMat) :
    data_setup_shifts cSM "scone" B1 B2 = .ok [L1_lower B1, L1_upper B2]
  ∧ data_setup_shifts cSM "scnn2" B1 B2 =
      .ok [(L1_lower B1).pow 1, (L1_lower B1).pow 2,
           (L1_upper B2).pow 1, (L1_upper B2).pow 2]
  ∧ data_setup_shifts cSM "scnn3" B1 B2 =
      .ok [(L1_lower B1).pow 1, (L1_lower B1).pow 2, (L1_lower B1).pow 3,
           (L1_upper B2).pow 1, (L1_upper B2).pow 2, (L1_upper B2).pow 3]
  ∧ data_setup_shifts cSM "scnn4" B1 B2 =
      .ok [(L1_lower B1).pow 1, (L1_lower B1).pow 2, (L1_lower B1).pow 3,
           (L1_lower B1).pow 4,
           (L1_upper B2).pow 1, (L1_upper B2).pow 2, (L1_upper B2).pow 3,
           (L1_upper B2).pow 4]
  ∧ data_setup_shifts cSM "ebli" B1 B2 =
      .ok [(L1_lower B1 + L1_upper B2).pow 1, (L1_lower B1 + L1_upper B2).pow 2,
           (L1_lower B1 + L1_upper B2).pow 3]
  ∧ L1_lower B1 = B1.transpose.mul B1 ∧ L1_upper B2 = B2.mul B2.transpose :=
  ⟨rfl, rfl, rfl, rfl, rfl, rfl, rfl⟩

/-! ### Claim C2: the operator/weight pairing bug in `scnn_func_4` -/

/-- C2 (code bug): `scnn_func_4` never consumes its `S4_lower` argument — the
result is unchanged under replacing the fourth-lower-power operator by any
other matrix, because the layer update pairs weight offset 4 with `S4_upper`
(which is also paired with weight offset 8) instead of `S4_lower`. -/
theorem scnn_func_4_ignores_fourth_lower_power (k1 k2 : ℕ) (weights : List RMat)
    (S_lower S2_lower S3_lower A B S_upper S2_upper S3_upper S4_upper : RMat)
    (Bcond_fn : ℤ → RMat) (last_node : ℤ) (flow : RMat) :
    scnn_func_4 k1 k2 weights S_lower S2_lower S3_lower A
      S_upper S2_upper S3_upper S4_upper Bcond_fn last_node flow
  = scnn_func_4 k1 k2 weights S_lower S2_lower S3_lower B
      S_upper S2_upper S3_upper S4_upper Bcond_fn last_node flow := rfl

/-! ### Claim C7: the weight-count validation of `scnn_func_3/4` does not
bound the weight indices read by a layer -/

/-- C7: with the default hyperparameters (`k1_scnn = k2_scnn = 2`), a weight
list of length 6 passes the divisibility assertion of `scnn_func_3` and
`scnn_func_4` (the group size used is `1 + k1 + k2 = 5`, not the operator
count), yielding one layer, and the single layer then reads weight index 6
(resp. 8), which is out of bounds: both functions end in an index error, so
the validation does not ensure that the weight accesses are in bounds. -/
theorem scnn_validation_does_not_bound_accesses :
    (((List.replicate 6 (RMat.zeros 1 1)).length : ℤ) - 1) % ((1 + k1_scnn + k2_scnn : ℕ) : ℤ) = 0
  ∧ (((List.replicate 6 (RMat.zeros 1 1)).length : ℤ) - 1) / ((1 + k1_scnn + k2_scnn : ℕ) : ℤ) = 1
  ∧ scnn_func_3 k1_scnn k2_scnn (List.replicate 6 (RMat.zeros 1 1))
      (RMat.zeros 1 1) (RMat.zeros 1 1) (RMat.zeros 1 1) (RMat.zeros 1 1)
      (RMat.zeros 1 1) (RMat.zeros 1 1) (fun _ => RMat.zeros 1 1) 0 (RMat.zeros 1 1)
      = .error "IndexError"
  ∧ scnn_func_4 k1_scnn k2_scnn (List.replicate 6 (RMat.zeros 1 1))
      (RMat.zeros 1 1) (RMat.zeros 1 1) (RMat.zeros 1 1) (RMat.zeros 1 1)
      (RMat.zeros 1 1) (RMat.zeros 1 1) (RMat.zeros 1 1) (RMat.zeros 1 1)
      (fun _ => RMat.zeros 1 1) 0 (RMat.zeros 1 1)
      = .error "IndexError" :=
  ⟨rfl, rfl, rfl, rfl⟩

/-! ### Claim C3: weight-count validation -/

/-- C3 (counterexample): the decomposition family's forward pass `bunch_func`
accepts a weight list of length 7 and returns a result, although
`len(weights) - 1 = 6` is not divisible by the per-layer operator count 7 —
`bunch_func` validates `len(weights)` itself, not `len(weights) - 1`, so the
claim's divisibility rule is refuted at this input. -/
theorem bunch_func_accepts_7_weights :
    ¬ (((List.replicate 7 (RMat.zeros 1 1)).length : ℤ) - 1) % 7 = 0
  ∧ ∃ y, bunch_func (List.replicate 7 (RMat.zeros 1 1))
      (RMat.zeros 1 1) (RMat.zeros 1 1) (RMat.zeros 1 1) (RMat.zeros 1 1)
      (RMat.zeros 1 1) (RMat.zeros 1 1) (RMat.zeros 1 1)
      (fun _ => [0]) 0 (RMat.zeros 1 1) = .ok y :=
  ⟨by decide, ⟨_, rfl⟩⟩

/-- C3 (amended): each forward-propagation function raises the
wrong-number-of-weights error, before performing any matrix multiplication,
exactly according to its own in-code divisibility check: the base family
(`scone_func`) requires `len(weights) - 1` divisible by 3, the order-2/3/4
families (`scnn_func_2/3/4`) require `len(weights) - 1` divisible by
`1 + k1_scnn + k2_scnn = 5` under the default hyperparameters, the
combined-sum family (`ebli_func`) requires `len(weights) - 1` divisible by 4,
and the decomposition family (`bunch_func`) requires `len(weights)` itself
(with no minus one) divisible by 7. -/
theorem forward_weight_count_validation
    (ws1 ws2 ws3 ws4 ws5 ws6 : List RMat) (S : RMat) (Bcond_fn : ℤ → RMat)
    (nbrhoods : ℤ → List ℤ) (last_node : ℤ) (flow : RMat)
    (h1 : ¬ ((ws1.length : ℤ) - 1) % 3 = 0)
    (h2 : ¬ ((ws2.length : ℤ) - 1) % ((1 + k1_scnn + k2_scnn : ℕ) : ℤ) = 0)
    (h3 : ¬ ((ws3.length : ℤ) - 1) % ((1 + k1_scnn + k2_scnn : ℕ) : ℤ) = 0)
    (h4 : ¬ ((ws4.length : ℤ) - 1) % ((1 + k1_scnn + k2_scnn : ℕ) : ℤ) = 0)
    (h5 : ¬ ((ws5.length : ℤ) - 1) % 4 = 0)
    (h6 : ¬ ((ws6.length : ℤ)) % 7 = 0) :
    scone_func ws1 S S Bcond_fn last_node flow = .error "wrong number of weights"
  ∧ scnn_func_2 k1_scnn k2_scnn ws2 S S S S Bcond_fn last_node flow
      = .error "wrong number of weights"
  ∧ scnn_func_3 k1_scnn k2_scnn ws3 S S S S S S Bcond_fn last_node flow
      = .error "wrong number of weights"
  ∧ scnn_func_4 k1_scnn k2_scnn ws4 S S S S S S S S Bcond_fn last_node flow
      = .error "wrong number of weights"
  ∧ ebli_func ws5 S S S Bcond_fn last_node flow = .error "wrong number of weights"
  ∧ bunch_func ws6 S S S S S S S nbrhoods last_node flow
      = .error "wrong number of weights" := by
  refine ⟨?_, ?_, ?_, ?_, ?_, ?_⟩
  · rw [scone_func, if_neg h1]
  · rw [scnn_func_2, if_neg h2]
  · rw [scnn_func_3, if_neg h3]
  · rw [scnn_func_4, if_neg h4]
  · rw [ebli_func, if_neg h5]
  · rw [bunch_func, if_neg h6]

/-- Witness for the amended C3 theorem at concrete weight lists: length 5
fails the base, order-2/3/4 and decomposition checks, and length 6 fails the
combined-sum check. -/
theorem forward_weight_count_validation_witness :
    scone_func (List.replicate 5 (RMat.zeros 1 1)) (RMat.zeros 1 1) (RMat.zeros 1 1)
      (fun _ => RMat.zeros 1 1) 0 (RMat.zeros 1 1) = .error "wrong number of weights"
  ∧ scnn_func_2 k1_scnn k2_scnn (List.replicate 5 (RMat.zeros 1 1)) (RMat.zeros 1 1)
      (RMat.zeros 1 1) (RMat.zeros 1 1) (RMat.zeros 1 1)
      (fun _ => RMat.zeros 1 1) 0 (RMat.zeros 1 1) = .error "wrong number of weights"
  ∧ scnn_func_3 k1_scnn k2_scnn (List.replicate 5 (RMat.zeros 1 1)) (RMat.zeros 1 1)
      (RMat.zeros 1 1) (RMat.zeros 1 1) (RMat.zeros 1 1) (RMat.zeros 1 1) (RMat.zeros 1 1)
      (fun _ => RMat.zeros 1 1) 0 (RMat.zeros 1 1) = .error "wrong number of weights"
  ∧ scnn_func_4 k1_scnn k2_scnn (List.replicate 5 (RMat.zeros 1 1)) (RMat.zeros 1 1)
      (RMat.zeros 1 1) (RMat.zeros 1 1) (RMat.zeros 1 1) (RMat.zeros 1 1) (RMat.zeros 1 1)
      (RMat.zeros 1 1) (RMat.zeros 1 1)
      (fun _ => RMat.zeros 1 1) 0 (RMat.zeros 1 1) = .error "wrong number of weights"
  ∧ ebli_func (List.replicate 6 (RMat.zeros 1 1)) (RMat.zeros 1 1) (RMat.zeros 1 1)
      (RMat.zeros 1 1) (fun _ => RMat.zeros 1 1) 0 (RMat.zeros 1 1)
      = .error "wrong number of weights"
  ∧ bunch_func (List.replicate 5 (RMat.zeros 1 1)) (RMat.zeros 1 1) (RMat.zeros 1 1)
      (RMat.zeros 1 1) (RMat.zeros 1 1) (RMat.zeros 1 1) (RMat.zeros 1 1) (RMat.zeros 1 1)
      (fun _ => [0]) 0 (RMat.zeros 1 1) = .error "wrong number of weights" :=
  forward_weight_count_validation
    (List.replicate 5 (RMat.zeros 1 1)) (List.replicate 5 (RMat.zeros 1 1))
    (List.replicate 5 (RMat.zeros 1 1)) (List.replicate 5 (RMat.zeros 1 1))
    (List.replicate 6 (RMat.zeros 1 1)) (List.replicate 5 (RMat.zeros 1 1))
    (RMat.zeros 1 1) (fun _ => RMat.zeros 1 1) (fun _ => [0]) 0 (RMat.zeros 1 1)
    (by decide) (by decide) (by decide) (by decide) (by decide) (by decide)

/-! ### Claim C9: regional-transfer masks -/

/-- C9: under the regional-transfer configuration, the train mask selects
exactly the example indices `i` with `i % 3 = 1` and the test mask exactly
those with `i % 3 = 2`; the two masks never both select an index, and together
they select exactly the indices of those two thirds. -/
theorem regional_masks_partition (n i : ℕ) (h : i < n) :
    ((regional_train_mask n).getD i 0 = 1 ↔ i % 3 = 1)
  ∧ ((regional_test_mask n).getD i 0 = 1 ↔ i % 3 = 2)
  ∧ ¬ ((regional_train_mask n).getD i 0 = 1 ∧ (regional_test_mask n).getD i 0 = 1)
  ∧ (((regional_train_mask n).getD i 0 = 1 ∨ (regional_test_mask n).getD i 0 = 1)
      ↔ (i % 3 = 1 ∨ i % 3 = 2)) := by
  have ht : (regional_train_mask n).getD i 0 = if i % 3 = 1 then 1 else 0 := by
    rw [regional_train_mask, List.getD_eq_getElem?_getD, List.getElem?_map,
      List.getElem?_range h]
    rfl
  have hs : (regional_test_mask n).getD i 0 = if i % 3 = 2 then 1 else 0 := by
    rw [regional_test_mask, List.getD_eq_getElem?_getD, List.getElem?_map,
      List.getElem?_range h]
    rfl
  rw [ht, hs]
  refine ⟨?_, ?_, ?_, ?_⟩ <;> split_ifs <;> simp_all

/-- Witness for the regional-mask theorem at `n = 6`: indices 4 and 5 land in
the train and test thirds respectively. -/
theorem regional_masks_partition_witness :
    ((regional_train_mask 6).getD 4 0 = 1 ↔ 4 % 3 = 1)
  ∧ ((regional_test_mask 6).getD 4 0 = 1 ↔ 4 % 3 = 2)
  ∧ ¬ ((regional_train_mask 6).getD 4 0 = 1 ∧ (regional_test_mask 6).getD 4 0 = 1)
  ∧ (((regional_train_mask 6).getD 4 0 = 1 ∨ (regional_test_mask 6).getD 4 0 = 1)
      ↔ (4 % 3 = 1 ∨ 4 % 3 = 2)) :=
  regional_masks_partition 6 4 (by decide)

/-! ### Claim C10: prefix-cache fallback -/

/-- C10: when loading the precomputed path-prefix cache fails with any error,
`data_setup` recovers locally: it returns (without propagating any error) one
prefix per example, computed by applying `flow_to_path` to the example's raw
flow tensor, the edge list and the example's last node. -/
theorem load_prefixes_fallback (e : String)
    (flow_to_path_fn : RMat → List (ℤ × ℤ) → ℤ → List ℤ)
    (E : List (ℤ × ℤ)) (flows : List RMat) (last_nodes : List ℤ) :
    (load_prefixes (.error e) flow_to_path_fn E flows last_nodes).length
      = last_nodes.length
  ∧ ∀ i, i < last_nodes.length →
      (load_prefixes (.error e) flow_to_path_fn E flows last_nodes).getD i []
        = flow_to_path_fn (flows.getD i (RMat.zeros 0 0)) E (last_nodes.getD i 0) := by
  constructor
  · rw [load_prefixes, List.length_map, List.length_range]
  · intro i h
    rw [load_prefixes, List.getD_eq_getElem?_getD, List.getElem?_map,
      List.getElem?_range h]
    rfl

/-- Witness for the prefix-fallback theorem on a one-example dataset. -/
theorem load_prefixes_fallback_witness :
    (load_prefixes (.error "file not found") (fun _ _ n => [n]) []
        [RMat.zeros 1 1] [3]).length = ([3] : List ℤ).length
  ∧ (load_prefixes (.error "file not found") (fun _ _ n => [n]) []
        [RMat.zeros 1 1] [3]).getD 0 []
      = (fun (_ : RMat) (_ : List (ℤ × ℤ)) (n : ℤ) => [n])
          (([RMat.zeros 1 1] : List RMat).getD 0 (RMat.zeros 0 0)) []
          (([3] : List ℤ).getD 0 0) :=
  ⟨(load_prefixes_fallback "file not found" (fun _ _ n => [n]) [] [RMat.zeros 1 1] [3]).1,
   (load_prefixes_fallback "file not found" (fun _ _ n => [n]) [] [RMat.zeros 1 1] [3]).2
     0 (by decide)⟩

/-! ### Claim C8: the base operators are symmetric positive-semidefinite -/

theorem RMat.transpose_entry (A : RMat) (i j : ℕ) :
    A.transpose.entry i j = if i < A.cols ∧ j < A.rows then A.entry j i else 0 := rfl

theorem L1_lower_entry (B1 : RMat) (i j : ℕ) :
    (L1_lower B1).entry i j = if i < B1.cols ∧ j < B1.cols then
      ∑ k in Finset.range B1.rows, B1.entry k i * B1.entry k j else 0 := by
  simp only [L1_lower, RMat.mul, RMat.transpose, RMat.entry_ofFun, RMat.rows_ofFun,
    RMat.cols_ofFun]
  by_cases hij : i < B1.cols ∧ j < B1.cols
  · rw [if_pos hij, if_pos hij]
    refine Finset.sum_congr rfl (fun k hk => ?_)
    rw [if_pos ⟨hij.1, Finset.mem_range.mp hk⟩]
  · rw [if_neg hij, if_neg hij]

theorem L1_upper_entry (B2 : RMat) (i j : ℕ) :
    (L1_upper B2).entry i j = if i < B2.rows ∧ j < B2.rows then
      ∑ k in Finset.range B2.cols, B2.entry i k * B2.entry j k else 0 := by
  simp only [L1_upper, RMat.mul, RMat.transpose, RMat.entry_ofFun, RMat.rows_ofFun,
    RMat.cols_ofFun]
  by_cases hij : i < B2.rows ∧ j < B2.rows
  · rw [if_pos hij, if_pos hij]
    refine Finset.sum_congr rfl (fun k hk => ?_)
    rw [if_pos ⟨Finset.mem_range.mp hk, hij.2⟩]
  · rw [if_neg hij, if_neg hij]

/-- A sum of products against a Gram-style kernel is a sum of squares. -/
theorem quad_sum_sq (n m : ℕ) (b : ℕ → ℕ → ℝ) (x : ℕ → ℝ) :
    ∑ i in Finset.range n, ∑ j in Finset.range n,
        x i * (∑ k in Finset.range m, b k i * b k j) * x j
  = ∑ k in Finset.range m, (∑ i in Finset.range n, x i * b k i) ^ 2 :=
  calc ∑ i in Finset.range n, ∑ j in Finset.range n,
        x i * (∑ k in Finset.range m, b k i * b k j) * x j
      = ∑ i in Finset.range n, ∑ j in Finset.range n, ∑ k in Finset.range m,
          (x i * b k i) * (x j * b k j) := by
        refine Finset.sum_congr rfl fun i _ => Finset.sum_congr rfl fun j _ => ?_
        rw [Finset.mul_sum, Finset.sum_mul]
        exact Finset.sum_congr rfl fun k _ => by ring
    _ = ∑ i in Finset.range n, ∑ k in Finset.range m, ∑ j in Finset.range n,
          (x i * b k i) * (x j * b k j) :=
        Finset.sum_congr rfl fun i _ => Finset.sum_comm
    _ = ∑ k in Finset.range m, ∑ i in Finset.range n, ∑ j in Finset.range n,
          (x i * b k i) * (x j * b k j) := Finset.sum_comm
    _ = ∑ k in Finset.range m, (∑ i in Finset.range n, x i * b k i) ^ 2 := by
        refine Finset.sum_congr rfl fun k _ => ?_
        rw [sq, Finset.sum_mul_sum]

/-- C8: for every real boundary matrix input, the base operators
`lower = B1ᵀ·B1` and `upper = B2·B2ᵀ` built by `data_setup` are square,
symmetric, and positive-semidefinite: `xᵀ·lower·x ≥ 0` and `xᵀ·upper·x ≥ 0`
for every vector `x`. -/
theorem laplacian_operators_symmetric_psd (B1 B2 : RMat) (x : ℕ → ℝ) :
    (L1_lower B1).rows = (L1_lower B1).cols
  ∧ (L1_upper B2).rows = (L1_upper B2).cols
  ∧ (L1_lower B1).transpose = L1_lower B1
  ∧ (L1_upper B2).transpose = L1_upper B2
  ∧ 0 ≤ quadForm (L1_lower B1) x
  ∧ 0 ≤ quadForm (L1_upper B2) x := by
  refine ⟨rfl, rfl, ?_, ?_, ?_, ?_⟩
  · refine RMat.ext rfl rfl ?_
    funext i j
    rw [RMat.transpose_entry,
      show (L1_lower B1).cols = B1.cols from rfl,
      show (L1_lower B1).rows = B1.cols from rfl, L1_lower_entry, L1_lower_entry]
    by_cases hij : i < B1.cols ∧ j < B1.cols
    · rw [if_pos hij, if_pos ⟨hij.2, hij.1⟩, if_pos hij]
      exact Finset.sum_congr rfl fun k _ => by ring
    · rw [if_neg hij, if_neg hij]
  · refine RMat.ext rfl rfl ?_
    funext i j
    rw [RMat.transpose_entry,
      show (L1_upper B2).cols = B2.rows from rfl,
      show (L1_upper B2).rows = B2.rows from rfl, L1_upper_entry, L1_upper_entry]
    by_cases hij : i < B2.rows ∧ j < B2.rows
    · rw [if_pos hij, if_pos ⟨hij.2, hij.1⟩, if_pos hij]
      exact Finset.sum_congr rfl fun k _ => by ring
    · rw [if_neg hij, if_neg hij]
  · have hq : quadForm (L1_lower B1) x
        = ∑ k in Finset.range B1.rows, (∑ i in Finset.range B1.cols, x i * B1.entry k i) ^ 2 := by
      rw [quadForm, show (L1_lower B1).rows = B1.cols from rfl,
        show (L1_lower B1).cols = B1.cols from rfl,
        ← quad_sum_sq B1.cols B1.rows (fun k i => B1.entry k i) x]
      refine Finset.sum_congr rfl fun i hi => Finset.sum_congr rfl fun j hj => ?_
      rw [L1_lower_entry, if_pos ⟨Finset.mem_range.mp hi, Finset.mem_range.mp hj⟩]
    rw [hq]
    exact Finset.sum_nonneg fun k _ => sq_nonneg _
  · have hq : quadForm (L1_upper B2) x
        = ∑ k in Finset.range B2.cols, (∑ i in Finset.range B2.rows, x i * B2.entry i k) ^ 2 := by
      rw [quadForm, show (L1_upper B2).rows = B2.rows from rfl,
        show (L1_upper B2).cols = B2.rows from rfl,
        ← quad_sum_sq B2.rows B2.cols (fun k i => B2.entry i k) x]
      refine Finset.sum_congr rfl fun i hi => Finset.sum_congr rfl fun j hj => ?_
      rw [L1_upper_entry, if_pos ⟨Finset.mem_range.mp hi, Finset.mem_range.mp hj⟩]
    rw [hq]
    exact Finset.sum_nonneg fun k _ => sq_nonneg _

/-! ### Claim C6: the conditional-incidence selector -/

/-- C6: for a node `n` whose padded neighbor list is formed from its true
neighbor list (all valid row indices of `B1`) padded with `-1` sentinels to
the maximum degree, the selector output has exactly max-degree rows; row `j`
for a true neighbor equals the row of the bias-augmented matrix indexed by the
`j`-th neighbor; rows for sentinel slots are all zero; and this is realized by
appending exactly one all-zero row to `B1`, to which the index `-1` resolves. -/
theorem Bconds_func_selector_spec (B1 : RMat) (nbrs : List ℤ) (max_degree : ℕ)
    (nbrhoods : ℤ → List ℤ) (n : ℤ)
    (htab : nbrhoods n = padded_nbrhood nbrs max_degree)
    (hlen : nbrs.length ≤ max_degree)
    (hmem : ∀ v ∈ nbrs, 0 ≤ v ∧ v < (B1.rows : ℤ)) :
    (appendZeroRow B1).rows = B1.rows + 1
  ∧ (∀ c, (appendZeroRow B1).entry B1.rows c = 0)
  ∧ ((appendZeroRow B1).resolve (-1) = B1.rows)
  ∧ (Bconds_func (appendZeroRow B1) nbrhoods n).rows = max_degree
  ∧ (∀ j, j < nbrs.length → ∀ c, c < B1.cols →
      (Bconds_func (appendZeroRow B1) nbrhoods n).entry j c
        = B1.entry (nbrs.getD j 0).toNat c)
  ∧ (∀ j, nbrs.length ≤ j → ∀ c,
      (Bconds_func (appendZeroRow B1) nbrhoods n).entry j c = 0) := by
  refine ⟨rfl, ?_, ?_, ?_, ?_, ?_⟩
  · intro c
    simp [appendZeroRow, RMat.entry_ofFun]
  · simp only [RMat.resolve, appendZeroRow, RMat.rows_ofFun, if_pos (show (-1 : ℤ) < 0 by decide)]
    omega
  · rw [Bconds_func, RMat.rowIndex, RMat.rows_ofFun, htab, padded_nbrhood,
      List.length_append, List.length_replicate]
    omega
  · intro j hj c hc
    rw [Bconds_func, RMat.rowIndex, RMat.entry_ofFun, htab, padded_nbrhood]
    have hjlen : j < (nbrs ++ List.replicate (max_degree - nbrs.length) (-1 : ℤ)).length := by
      rw [List.length_append, List.length_replicate]
      omega
    rw [if_pos ⟨hjlen, show c < (appendZeroRow B1).cols from hc⟩,
      List.getD_append _ _ _ _ hj]
    have hvmem : nbrs.getD j 0 ∈ nbrs := by
      rw [List.getD_eq_getElem _ _ hj]
      exact List.getElem_mem _
    obtain ⟨hv0, hvlt⟩ := hmem _ hvmem
    simp only [RMat.resolve, if_neg (not_lt.mpr hv0)]
    rw [show (appendZeroRow B1).entry (nbrs.getD j 0).toNat c
        = if (nbrs.getD j 0).toNat < B1.rows + 1 ∧ c < B1.cols then
            (if (nbrs.getD j 0).toNat < B1.rows then B1.entry (nbrs.getD j 0).toNat c else 0)
          else 0 from rfl,
      if_pos ⟨by omega, hc⟩, if_pos (by omega)]
  · intro j hjge c
    rw [Bconds_func, RMat.rowIndex, RMat.entry_ofFun, htab, padded_nbrhood]
    by_cases hcnd : j < (nbrs ++ List.replicate (max_degree - nbrs.length) (-1 : ℤ)).length
        ∧ c < (appendZeroRow B1).cols
    · rw [if_pos hcnd]
      have hrep : (nbrs ++ List.replicate (max_degree - nbrs.length) (-1 : ℤ)).getD j 0
          = -1 := by
        rw [List.getD_append_right _ _ _ _ hjge]
        have hlt : j - nbrs.length < max_degree - nbrs.length := by
          have := hcnd.1
          rw [List.length_append, List.length_replicate] at this
          omega
        rw [List.getD_eq_getElem _ _ (by rwa [List.length_replicate]),
          List.getElem_replicate]
      rw [hrep]
      simp only [RMat.resolve, if_pos (show (-1 : ℤ) < 0 by decide)]
      have hrow : (((appendZeroRow B1).rows : ℤ) + (-1)).toNat = B1.rows := by
        simp only [appendZeroRow, RMat.rows_ofFun]
        omega
      rw [hrow]
      simp [appendZeroRow, RMat.entry_ofFun]
    · rw [if_neg hcnd]

/-- Witness for the selector theorem: a `2 × 2` boundary matrix, one true
neighbor `0`, and maximum degree 2 (one sentinel slot). -/
theorem Bconds_func_selector_spec_witness :
    (appendZeroRow (RMat.ofFun 2 2 (fun i j => if i = 0 ∧ j = 0 then 1 else 0))).rows = 3
  ∧ (appendZeroRow (RMat.ofFun 2 2 (fun i j => if i = 0 ∧ j = 0 then 1 else 0))).entry 2 1 = 0
  ∧ ((appendZeroRow (RMat.ofFun 2 2 (fun i j => if i = 0 ∧ j = 0 then 1 else 0))).resolve (-1) = 2)
  ∧ (Bconds_func (appendZeroRow (RMat.ofFun 2 2 (fun i j => if i = 0 ∧ j = 0 then 1 else 0)))
      (fun _ => padded_nbrhood [0] 2) 0).rows = 2
  ∧ (Bconds_func (appendZeroRow (RMat.ofFun 2 2 (fun i j => if i = 0 ∧ j = 0 then 1 else 0)))
        (fun _ => padded_nbrhood [0] 2) 0).entry 0 0
      = (RMat.ofFun 2 2 (fun i j => if i = 0 ∧ j = 0 then 1 else 0)).entry
          (([0] : List ℤ).getD 0 0).toNat 0
  ∧ (Bconds_func (appendZeroRow (RMat.ofFun 2 2 (fun i j => if i = 0 ∧ j = 0 then 1 else 0)))
        (fun _ => padded_nbrhood [0] 2) 0).entry 1 0 = 0 := by
  have h := Bconds_func_selector_spec
    (RMat.ofFun 2 2 (fun i j => if i = 0 ∧ j = 0 then 1 else 0))
    [0] 2 (fun _ => padded_nbrhood [0] 2) 0 rfl (by decide)
    (by
      intro v hv
      simp only [List.mem_singleton] at hv
      subst hv
      exact ⟨le_refl 0, by decide⟩)
  exact ⟨h.1, h.2.1 1, h.2.2.1, h.2.2.2.1, h.2.2.2.2.1 0 (by decide) 0 (by decide),
    h.2.2.2.2.2 1 (by decide) 0⟩

/-! ### Claim C5: total probability mass of the log-softmax output -/

/-- The exponentials of a log-softmax output sum to 1 over all entries. -/
theorem expSumAll_logSoftmax (A : RMat) (h1 : 0 < A.rows) (h2 : 0 < A.cols) :
    expSumAll (logSoftmax A) = 1 := by
  have hS : 0 < ∑ i in Finset.range A.rows, ∑ j in Finset.range A.cols,
      Real.exp (A.entry i j) :=
    Finset.sum_pos
      (fun i _ => Finset.sum_pos (fun j _ => Real.exp_pos _)
        (Finset.nonempty_range_iff.mpr h2.ne'))
      (Finset.nonempty_range_iff.mpr h1.ne')
  rw [expSumAll, show (logSoftmax A).rows = A.rows from rfl,
    show (logSoftmax A).cols = A.cols from rfl]
  have hterm : ∀ i ∈ Finset.range A.rows, ∀ j ∈ Finset.range A.cols,
      Real.exp ((logSoftmax A).entry i j)
        = Real.exp (A.entry i j) / (∑ i in Finset.range A.rows,
            ∑ j in Finset.range A.cols, Real.exp (A.entry i j)) := by
    intro i hi j hj
    rw [show (logSoftmax A).entry i j
        = if i < A.rows ∧ j < A.cols then A.entry i j - logsumexp A else 0 from rfl,
      if_pos ⟨Finset.mem_range.mp hi, Finset.mem_range.mp hj⟩, logsumexp,
      Real.exp_sub, Real.exp_log hS]
  calc ∑ i in Finset.range A.rows, ∑ j in Finset.range A.cols,
        Real.exp ((logSoftmax A).entry i j)
      = ∑ i in Finset.range A.rows, ∑ j in Finset.range A.cols,
          Real.exp (A.entry i j) / (∑ i in Finset.range A.rows,
            ∑ j in Finset.range A.cols, Real.exp (A.entry i j)) :=
        Finset.sum_congr rfl fun i hi => Finset.sum_congr rfl fun j hj => hterm i hi j hj
    _ = 1 := by
        simp only [← Finset.sum_div]
        exact div_self hS.ne'


/-- C5 (amended): for every family, whenever the forward pass returns a
(nonempty) log-probability vector, its exponentials sum to 1 over ALL
max-degree candidate slots — padding slots included, since the log-sum-exp is
taken over the whole logits vector. -/
theorem forward_log_probability_total_mass
    (ws : List RMat) (S1 S2 S3 S4 S5 S6 S7 S8 : RMat) (Bcond_fn : ℤ → RMat)
    (nbrhoods : ℤ → List ℤ) (last_node : ℤ) (flow y : RMat) :
    (scone_func ws S1 S2 Bcond_fn last_node flow = .ok y →
      0 < y.rows → 0 < y.cols → expSumAll y = 1)
  ∧ (scnn_func_2 k1_scnn k2_scnn ws S1 S2 S3 S4 Bcond_fn last_node flow = .ok y →
      0 < y.rows → 0 < y.cols → expSumAll y = 1)
  ∧ (scnn_func_3 k1_scnn k2_scnn ws S1 S2 S3 S4 S5 S6 Bcond_fn last_node flow = .ok y →
      0 < y.rows → 0 < y.cols → expSumAll y = 1)
  ∧ (scnn_func_4 k1_scnn k2_scnn ws S1 S2 S3 S4 S5 S6 S7 S8 Bcond_fn last_node flow
        = .ok y → 0 < y.rows → 0 < y.cols → expSumAll y = 1)
  ∧ (ebli_func ws S1 S2 S3 Bcond_fn last_node flow = .ok y →
      0 < y.rows → 0 < y.cols → expSumAll y = 1)
  ∧ (bunch_func ws S1 S2 S3 S4 S5 S6 S7 nbrhoods last_node flow = .ok y →
      0 < y.rows → 0 < y.cols → expSumAll y = 1) := by
  refine ⟨?_, ?_, ?_, ?_, ?_, ?_⟩
  · intro h h1 h2
    unfold scone_func at h
    split at h
    · split at h
      · exact Except.noConfusion h
      · split at h
        · exact Except.noConfusion h
        · obtain rfl := Except.ok.inj h
          exact expSumAll_logSoftmax _ h1 h2
    · exact Except.noConfusion h
  · intro h h1 h2
    unfold scnn_func_2 at h
    split at h
    · split at h
      · exact Except.noConfusion h
      · split at h
        · exact Except.noConfusion h
        · obtain rfl := Except.ok.inj h
          exact expSumAll_logSoftmax _ h1 h2
    · exact Except.noConfusion h
  · intro h h1 h2
    unfold scnn_func_3 at h
    split at h
    · split at h
      · exact Except.noConfusion h
      · split at h
        · exact Except.noConfusion h
        · obtain rfl := Except.ok.inj h
          exact expSumAll_logSoftmax _ h1 h2
    · exact Except.noConfusion h
  · intro h h1 h2
    unfold scnn_func_4 at h
    split at h
    · split at h
      · exact Except.noConfusion h
      · split at h
        · exact Except.noConfusion h
        · obtain rfl := Except.ok.inj h
          exact expSumAll_logSoftmax _ h1 h2
    · exact Except.noConfusion h
  · intro h h1 h2
    unfold ebli_func at h
    split at h
    · split at h
      · exact Except.noConfusion h
      · split at h
        · exact Except.noConfusion h
        · obtain rfl := Except.ok.inj h
          exact expSumAll_logSoftmax _ h1 h2
    · exact Except.noConfusion h
  · intro h h1 h2
    unfold bunch_func at h
    split at h
    · split at h
      · exact Except.noConfusion h
      · obtain rfl := Except.ok.inj h
        exact expSumAll_logSoftmax _ h1 h2
    · exact Except.noConfusion h

/-- C5 (counterexample): a concrete base-family forward pass over one edge,
whose selector has one valid neighbor row and one sentinel (all-zero) padding
row.  The returned log-probability vector puts mass `1/2` on the single valid
slot — not 1 as claimed — and mass `1/2`, not 0, on the padding slot: the
normalization runs over all slots, padding included. -/
theorem scone_valid_slot_mass_counterexample :
    scone_func [RMat.ofFun 1 1 (fun _ _ => 0)] (RMat.zeros 1 1) (RMat.zeros 1 1)
        (fun _ => RMat.ofFun 2 1 (fun i _ => if i = 0 then 1 else 0)) 0
        (RMat.ofFun 1 1 (fun _ _ => 1))
      = .ok (logSoftmax (((RMat.ofFun 2 1 (fun i _ => if i = 0 then 1 else 0)).mul
          (RMat.ofFun 1 1 (fun _ _ => 1))).mul (RMat.ofFun 1 1 (fun _ _ => 0))))
  ∧ (logSoftmax (((RMat.ofFun 2 1 (fun i _ => if i = 0 then 1 else 0)).mul
        (RMat.ofFun 1 1 (fun _ _ => 1))).mul (RMat.ofFun 1 1 (fun _ _ => 0)))).rows = 2
  ∧ Real.exp ((logSoftmax (((RMat.ofFun 2 1 (fun i _ => if i = 0 then 1 else 0)).mul
        (RMat.ofFun 1 1 (fun _ _ => 1))).mul (RMat.ofFun 1 1 (fun _ _ => 0)))).entry 0 0)
      = 1 / 2
  ∧ Real.exp ((logSoftmax (((RMat.ofFun 2 1 (fun i _ => if i = 0 then 1 else 0)).mul
        (RMat.ofFun 1 1 (fun _ _ => 1))).mul (RMat.ofFun 1 1 (fun _ _ => 0)))).entry 1 0)
      = 1 / 2
  ∧ Real.exp ((logSoftmax (((RMat.ofFun 2 1 (fun i _ => if i = 0 then 1 else 0)).mul
        (RMat.ofFun 1 1 (fun _ _ => 1))).mul (RMat.ofFun 1 1 (fun _ _ => 0)))).entry 0 0)
      ≠ 1
  ∧ Real.exp ((logSoftmax (((RMat.ofFun 2 1 (fun i _ => if i = 0 then 1 else 0)).mul
        (RMat.ofFun 1 1 (fun _ _ => 1))).mul (RMat.ofFun 1 1 (fun _ _ => 0)))).entry 1 0)
      ≠ 0 := by
  have hL : ∀ i j, i < 2 → j < 1 →
      (((RMat.ofFun 2 1 (fun i _ => if i = 0 then (1:ℝ) else 0)).mul
          (RMat.ofFun 1 1 (fun _ _ => 1))).mul (RMat.ofFun 1 1 (fun _ _ => 0))).entry i j
        = 0 := by
    intro i j hi hj
    simp [RMat.mul, RMat.ofFun, Finset.sum_range_succ, hi, hj]
  have hlse : logsumexp (((RMat.ofFun 2 1 (fun i _ => if i = 0 then (1:ℝ) else 0)).mul
      (RMat.ofFun 1 1 (fun _ _ => 1))).mul (RMat.ofFun 1 1 (fun _ _ => 0)))
      = Real.log 2 := by
    rw [logsumexp]
    rw [show (((RMat.ofFun 2 1 (fun i _ => if i = 0 then (1:ℝ) else 0)).mul
        (RMat.ofFun 1 1 (fun _ _ => 1))).mul (RMat.ofFun 1 1 (fun _ _ => 0))).rows
        = 2 from rfl,
      show (((RMat.ofFun 2 1 (fun i _ => if i = 0 then (1:ℝ) else 0)).mul
        (RMat.ofFun 1 1 (fun _ _ => 1))).mul (RMat.ofFun 1 1 (fun _ _ => 0))).cols
        = 1 from rfl]
    rw [Finset.sum_range_succ, Finset.sum_range_succ, Finset.sum_range_zero,
      Finset.sum_range_one, Finset.sum_range_one, hL 0 0 (by omega) (by omega),
      hL 1 0 (by omega) (by omega)]
    norm_num [Real.exp_zero]
  have hy : ∀ i, i < 2 →
      (logSoftmax (((RMat.ofFun 2 1 (fun i _ => if i = 0 then (1:ℝ) else 0)).mul
        (RMat.ofFun 1 1 (fun _ _ => 1))).mul (RMat.ofFun 1 1 (fun _ _ => 0)))).entry i 0
      = - Real.log 2 := by
    intro i hi
    rw [show (logSoftmax (((RMat.ofFun 2 1 (fun i _ => if i = 0 then (1:ℝ) else 0)).mul
        (RMat.ofFun 1 1 (fun _ _ => 1))).mul (RMat.ofFun 1 1 (fun _ _ => 0)))).entry i 0
        = if i < 2 ∧ 0 < 1 then
            (((RMat.ofFun 2 1 (fun i _ => if i = 0 then (1:ℝ) else 0)).mul
              (RMat.ofFun 1 1 (fun _ _ => 1))).mul (RMat.ofFun 1 1 (fun _ _ => 0))).entry i 0
            - logsumexp (((RMat.ofFun 2 1 (fun i _ => if i = 0 then (1:ℝ) else 0)).mul
              (RMat.ofFun 1 1 (fun _ _ => 1))).mul (RMat.ofFun 1 1 (fun _ _ => 0)))
          else 0 from rfl,
      if_pos ⟨hi, Nat.one_pos⟩, hL i 0 hi Nat.one_pos, hlse, zero_sub]
  have hhalf : Real.exp (- Real.log 2) = 1 / 2 := by
    rw [Real.exp_neg, Real.exp_log (by norm_num : (0:ℝ) < 2)]
    norm_num
  refine ⟨rfl, rfl, ?_, ?_, ?_, ?_⟩
  · rw [hy 0 (by omega), hhalf]
  · rw [hy 1 (by omega), hhalf]
  · rw [hy 0 (by omega), hhalf]
    norm_num
  · rw [hy 1 (by omega), hhalf]
    norm_num

/-- Witness for the amended C5 theorem: zero-layer runs of all six families on
one-edge data, each returning a nonempty log-softmax vector of total mass 1. -/
theorem forward_log_probability_total_mass_witness :
    expSumAll (logSoftmax (((RMat.zeros 1 1).mul (RMat.zeros 1 1)).mul (RMat.zeros 1 1))) = 1
  ∧ expSumAll (logSoftmax ((RMat.zeros 1 1).rowIndex [0])) = 1 := by
  constructor
  · exact (forward_log_probability_total_mass [RMat.zeros 1 1] (RMat.zeros 1 1)
      (RMat.zeros 1 1) (RMat.zeros 1 1) (RMat.zeros 1 1) (RMat.zeros 1 1) (RMat.zeros 1 1)
      (RMat.zeros 1 1) (RMat.zeros 1 1) (fun _ => RMat.zeros 1 1) (fun _ => [0]) 0
      (RMat.zeros 1 1)
      (logSoftmax (((RMat.zeros 1 1).mul (RMat.zeros 1 1)).mul (RMat.zeros 1 1)))).1
      rfl (by decide) (by decide)
  · exact (forward_log_probability_total_mass [] (RMat.zeros 1 1)
      (RMat.zeros 1 1) (RMat.zeros 1 1) (RMat.zeros 1 1) (RMat.zeros 1 1) (RMat.zeros 1 1)
      (RMat.zeros 1 1) (RMat.zeros 1 1) (fun _ => RMat.zeros 1 1) (fun _ => [0]) 0
      (RMat.zeros 1 1)
      (logSoftmax ((RMat.zeros 1 1).rowIndex [0]))).2.2.2.2.2
      rfl (by decide) (by decide)

/-! ### Claim C1: orientation-flip invariance of the base family -/

/-- Row selection commutes with a right diagonal factor. -/
theorem RMat.rowIndex_mul_diag {E : ℕ} (d : ℕ → ℝ) {B : RMat} (hcols : B.cols = E)
    (hwf : B.WF) (idx : List ℤ) :
    (B.mul (RMat.diag E d)).rowIndex idx = (B.rowIndex idx).mul (RMat.diag E d) := by
  rw [RMat.mul_diag E d hcols, RMat.mul_diag E d (show (B.rowIndex idx).cols = E from hcols)]
  refine RMat.ext rfl rfl ?_
  funext i j
  simp only [RMat.rowIndex, RMat.entry_ofFun, RMat.rows_ofFun, RMat.cols_ofFun,
    RMat.resolve, hcols]
  by_cases hij : i < idx.length ∧ j < E
  · rw [if_pos hij, if_pos hij, if_pos hij]
    by_cases hr : (if idx.getD i 0 < 0 then ((B.rows : ℤ) + idx.getD i 0).toNat
        else (idx.getD i 0).toNat) < B.rows
    · rw [if_pos ⟨hr, hij.2⟩]
    · rw [if_neg (fun hcnd => hr hcnd.1),
        hwf _ j (Or.inl (Nat.le_of_not_lt hr)), zero_mul]
  · rw [if_neg hij, if_neg hij]

/-- A successful `scone_func` layer step is the tanh of the three-term update. -/
theorem sconeStep_ok (ws : List RMat) (S_lower S_upper : RMat) (i : ℕ) (x y : RMat)
    (h : sconeStep ws S_lower S_upper i x = .ok y) :
    ∃ w0 w1 w2, y = RMat.map (x.mul w0 + (S_lower.mul x).mul w1
      + (S_upper.mul x).mul w2) tanh := by
  unfold sconeStep at h
  split at h
  · exact ⟨_, _, _, (Except.ok.inj h).symm⟩
  · exact Except.noConfusion h
  · exact Except.noConfusion h
  · exact Except.noConfusion h

/-- A successful run of the `scone_func` layer loop preserves well-formedness
and the row count of the signal. -/
theorem runLayers_sconeStep_ok_wf (ws : List RMat) (S_lower S_upper : RMat) :
    ∀ (l : List ℕ) (x cur : RMat),
      runLayers (sconeStep ws S_lower S_upper) l x = .ok cur → x.WF →
      cur.WF ∧ cur.rows = x.rows := by
  intro l
  induction l with
  | nil =>
    intro x cur h hx
    obtain rfl := Except.ok.inj h
    exact ⟨hx, rfl⟩
  | cons i rest ih =>
    intro x cur h hx
    simp only [runLayers] at h
    rcases hs : sconeStep ws S_lower S_upper i x with e | y
    · rw [hs] at h
      exact Except.noConfusion h
    · rw [hs] at h
      obtain ⟨w0, w1, w2, rfl⟩ := sconeStep_ok _ _ _ _ _ _ hs
      obtain ⟨hwf, hrows⟩ := ih _ cur h (RMat.map_wf _ _)
      exact ⟨hwf, hrows⟩

/-- One conjugated `scone_func` layer equals the diagonal flip of the original
layer, for a well-formed signal of matching row count. -/
theorem sconeLayer_flip {E : ℕ} {d : ℕ → ℝ} (hd : ∀ i, d i = 1 ∨ d i = -1)
    {S_lower S_upper : RMat}
    (hSl1 : S_lower.rows = E) (hSl2 : S_lower.cols = E)
    (hSu1 : S_upper.rows = E) (hSu2 : S_upper.cols = E)
    {x : RMat} (hx : x.WF) (hxr : x.rows = E) (w0 w1 w2 : RMat) :
    RMat.map (((RMat.diag E d).mul x).mul w0
      + ((((RMat.diag E d).mul S_lower).mul (RMat.diag E d)).mul
          ((RMat.diag E d).mul x)).mul w1
      + ((((RMat.diag E d).mul S_upper).mul (RMat.diag E d)).mul
          ((RMat.diag E d).mul x)).mul w2) tanh
    = (RMat.diag E d).mul (RMat.map (x.mul w0 + (S_lower.mul x).mul w1
        + (S_upper.mul x).mul w2) tanh) := by
  have hA : ((RMat.diag E d).mul x).mul w0 = (RMat.diag E d).mul (x.mul w0) :=
    RMat.mul_assoc' (show (RMat.diag E d).cols = x.rows from hxr.symm) w0
  have hB : (((RMat.diag E d).mul S_lower).mul (RMat.diag E d)).mul
      ((RMat.diag E d).mul x) = (RMat.diag E d).mul (S_lower.mul x) := by
    rw [RMat.mul_assoc'
        (show ((RMat.diag E d).mul S_lower).cols = (RMat.diag E d).rows from hSl2),
      RMat.diag_diag_cancel hd hx hxr]
    exact RMat.mul_assoc' (show (RMat.diag E d).cols = S_lower.rows from hSl1.symm) x
  have hC : (((RMat.diag E d).mul S_upper).mul (RMat.diag E d)).mul
      ((RMat.diag E d).mul x) = (RMat.diag E d).mul (S_upper.mul x) := by
    rw [RMat.mul_assoc'
        (show ((RMat.diag E d).mul S_upper).cols = (RMat.diag E d).rows from hSu2),
      RMat.diag_diag_cancel hd hx hxr]
    exact RMat.mul_assoc' (show (RMat.diag E d).cols = S_upper.rows from hSu1.symm) x
  rw [hA, hB, hC,
    RMat.mul_assoc' (show (RMat.diag E d).cols = (S_lower.mul x).rows from hSl1.symm) w1,
    RMat.mul_assoc' (show (RMat.diag E d).cols = (S_upper.mul x).rows from hSu1.symm) w2,
    RMat.diag_add d (show (x.mul w0).rows = E from hxr) (RMat.mul_wf _ _),
    RMat.diag_add d (show (x.mul w0 + (S_lower.mul x).mul w1).rows = E from hxr)
      (RMat.mul_wf _ _)]
  exact RMat.diag_map_tanh hd
    (show (x.mul w0 + (S_lower.mul x).mul w1 + (S_upper.mul x).mul w2).rows = E from hxr)

/-- The conjugated `scone_func` layer loop equals the diagonal flip of the
original loop. -/
theorem runLayers_sconeStep_flip {E : ℕ} {d : ℕ → ℝ} (hd : ∀ i, d i = 1 ∨ d i = -1)
    (ws : List RMat) {S_lower S_upper : RMat}
    (hSl1 : S_lower.rows = E) (hSl2 : S_lower.cols = E)
    (hSu1 : S_upper.rows = E) (hSu2 : S_upper.cols = E) :
    ∀ (l : List ℕ) (x : RMat), x.WF → x.rows = E →
      runLayers (sconeStep ws (((RMat.diag E d).mul S_lower).mul (RMat.diag E d))
          (((RMat.diag E d).mul S_upper).mul (RMat.diag E d))) l ((RMat.diag E d).mul x)
        = Except.map (fun y => (RMat.diag E d).mul y)
            (runLayers (sconeStep ws S_lower S_upper) l x) := by
  intro l
  induction l with
  | nil =>
    intro x hx hxr
    simp [runLayers, Except.map]
  | cons i rest ih =>
    intro x hx hxr
    simp only [runLayers]
    have hstep : sconeStep ws (((RMat.diag E d).mul S_lower).mul (RMat.diag E d))
        (((RMat.diag E d).mul S_upper).mul (RMat.diag E d)) i ((RMat.diag E d).mul x)
        = Except.map (fun y => (RMat.diag E d).mul y)
            (sconeStep ws S_lower S_upper i x) := by
      unfold sconeStep
      rcases h0 : getW ws (i * 3) with e0 | w0
      · simp [h0, Except.map]
      · rcases h1 : getW ws (i * 3 + 1) with e1 | w1
        · simp [h0, h1, Except.map]
        · rcases h2 : getW ws (i * 3 + 2) with e2 | w2
          · simp [h0, h1, h2, Except.map]
          · simp only [h0, h1, h2, Except.map]
            rw [sconeLayer_flip hd hSl1 hSl2 hSu1 hSu2 hx hxr]
    rcases hs : sconeStep ws S_lower S_upper i x with e | y
    · rw [hs] at hstep
      simp only [Except.map] at hstep
      simp [hstep, hs, Except.map]
    · rw [hs] at hstep
      simp only [Except.map] at hstep
      simp only [hstep, hs]
      obtain ⟨w0, w1, w2, rfl⟩ := sconeStep_ok _ _ _ _ _ _ hs
      exact ih _ (RMat.map_wf _ _) hxr

/-- C1: orientation-flip invariance of the base (tanh) family.  For every
diagonal `±1` matrix `F`, every weight list, every last node and every
well-formed flow, `scone_func` applied to the conjugated inputs
(`B1·F` inside the selector, `F·lower·F`, `F·upper·F`, `F·flow`) returns
exactly the log-probability vector of the original inputs. -/
theorem scone_orientation_flip_invariance (E : ℕ) (d : ℕ → ℝ)
    (hd : ∀ i, d i = 1 ∨ d i = -1)
    (weights : List RMat) (S_lower S_upper : RMat)
    (hSl1 : S_lower.rows = E) (hSl2 : S_lower.cols = E)
    (hSu1 : S_upper.rows = E) (hSu2 : S_upper.cols = E)
    (B1 : RMat) (hB1 : B1.cols = E)
    (nbrhoods : ℤ → List ℤ) (last_node : ℤ)
    (flow : RMat) (hfw : flow.WF) (hfr : flow.rows = E) :
    scone_func weights (((RMat.diag E d).mul S_lower).mul (RMat.diag E d))
      (((RMat.diag E d).mul S_upper).mul (RMat.diag E d))
      (Bconds_func ((appendZeroRow B1).mul (RMat.diag E d)) nbrhoods) last_node
      ((RMat.diag E d).mul flow)
    = scone_func weights S_lower S_upper (Bconds_func (appendZeroRow B1) nbrhoods)
        last_node flow := by
  unfold scone_func
  by_cases hc : ((weights.length : ℤ) - 1) % 3 = 0
  · rw [if_pos hc, if_pos hc,
      runLayers_sconeStep_flip hd weights hSl1 hSl2 hSu1 hSu2 _ flow hfw hfr]
    rcases hr : runLayers (sconeStep weights S_lower S_upper)
        (List.range (((weights.length : ℤ) - 1) / 3).toNat) flow with e | cur
    · simp [hr, Except.map]
    · simp only [hr, Except.map]
      rcases hl : weights.getLast? with _ | wl
      · simp [hl]
      · simp only [hl]
        obtain ⟨hcw, hcr⟩ :=
          runLayers_sconeStep_ok_wf weights S_lower S_upper _ flow cur hr hfw
        have hsel : Bconds_func ((appendZeroRow B1).mul (RMat.diag E d)) nbrhoods last_node
            = (Bconds_func (appendZeroRow B1) nbrhoods last_node).mul (RMat.diag E d) := by
          unfold Bconds_func
          exact RMat.rowIndex_mul_diag d (show (appendZeroRow B1).cols = E from hB1)
            (RMat.ofFun_wf _ _ _) _
        rw [hsel,
          RMat.mul_assoc'
            (show (Bconds_func (appendZeroRow B1) nbrhoods last_node).cols
              = (RMat.diag E d).rows from hB1) ((RMat.diag E d).mul cur),
          RMat.diag_diag_cancel hd hcw (by rw [hcr, hfr])]
  · rw [if_neg hc, if_neg hc]

/-- Witness for the orientation-flip theorem on a one-edge complex with the
all-`-1` flip. -/
theorem scone_orientation_flip_invariance_witness :
    scone_func [RMat.zeros 1 1]
      (((RMat.diag 1 (fun _ => -1)).mul (RMat.zeros 1 1)).mul (RMat.diag 1 (fun _ => -1)))
      (((RMat.diag 1 (fun _ => -1)).mul (RMat.zeros 1 1)).mul (RMat.diag 1 (fun _ => -1)))
      (Bconds_func ((appendZeroRow (RMat.zeros 1 1)).mul (RMat.diag 1 (fun _ => -1)))
        (fun _ => [0])) 0
      ((RMat.diag 1 (fun _ => -1)).mul (RMat.zeros 1 1))
    = scone_func [RMat.zeros 1 1] (RMat.zeros 1 1) (RMat.zeros 1 1)
        (Bconds_func (appendZeroRow (RMat.zeros 1 1)) (fun _ => [0])) 0 (RMat.zeros 1 1) :=
  scone_orientation_flip_invariance 1 (fun _ => -1) (fun _ => Or.inr rfl)
    [RMat.zeros 1 1] (RMat.zeros 1 1) (RMat.zeros 1 1) rfl rfl rfl rfl
    (RMat.zeros 1 1) rfl (fun _ => [0]) 0 (RMat.zeros 1 1) (RMat.ofFun_wf _ _ _) rfl
